import Mathlib

/-!
Verification of the Pig dice game (pig.py): a shallow embedding of the
players, decision policies, turn engine, game controller and the timed
proxy, together with theorems settling the claims of the specification.

Python integers are modelled as `Int`.  The random stream of the die is
modelled as an explicit list of roll values fed to the turn engine; the
console input of the interactive player is modelled as an explicit string
argument; wall-clock time is modelled as an explicit elapsed-time value
supplied at each turn boundary.  Loops that the source runs without a
bound (the roll loop and the main game loop) are modelled with the roll
list, respectively an explicit fuel counter, as the bound, returning
`none` when the bound is exhausted before the loop exits.
-/

namespace Pig

/-- Embeds `Player.make_decision`: the decision of the human player is the
console response lowercased.  The response string is passed explicitly;
lowercasing is character-wise (ASCII case folding, which covers the
responses of interest). -/
def Player.make_decision (response : String) : String :=
  String.mk (response.data.map Char.toLower)

/-- Embeds `ComputerPlayer.make_decision`: hold at the lesser of 25 or
100 minus the current score, or as soon as banking reaches 100. -/
def ComputerPlayer.make_decision (current_score turn_total : Int) : String :=
  if turn_total + current_score ≥ 100 ∨ turn_total ≥ min 25 (100 - current_score) then
    "h"
  else
    "r"

/-- The game state: the scores of the two players (the list of players,
each holding a score), the shared turn total, and the active player index
(a Python int, 0 or 1 during play). -/
structure Game where
  score0 : Int
  score1 : Int
  turn_total : Int
  current_player : Int
  deriving DecidableEq, Repr

/-- Embeds the Game constructor: both players start at score 0, the turn
total at 0, and player 0 is active. -/
def Game.init : Game :=
  { score0 := 0, score1 := 0, turn_total := 0, current_player := 0 }

/-- The list of players, projected to scores. -/
def Game.playerScores (g : Game) : List Int :=
  [g.score0, g.score1]

/-- The score of the active player: Python list indexing at 0 gives the
first player, at 1 the second; other indices never occur during play. -/
def Game.activeScore (g : Game) : Int :=
  if g.current_player = 0 then g.score0 else g.score1

/-- Embeds `add_to_score` of the Player class, applied to the active
player: the given points are added to the score of that player. -/
def Game.add_to_active (g : Game) (points : Int) : Game :=
  if g.current_player = 0 then
    { g with score0 := g.score0 + points }
  else
    { g with score1 := g.score1 + points }

/-- Embeds `Game.switch_player`: the active index becomes one minus the
active index. -/
def Game.switch_player (g : Game) : Game :=
  { g with current_player := 1 - g.current_player }

/-- Embeds `Game.is_winner`: true when any player has score at least
100. -/
def Game.is_winner (g : Game) : Bool :=
  g.playerScores.any (fun s => decide (s ≥ 100))

/-- Outcome of one turn of the engine: bust on a 1, or banking the
accumulated turn total. -/
inductive TurnOutcome where
  | busted : TurnOutcome
  | banked : Int → TurnOutcome
  deriving DecidableEq, Repr

/-- The inner roll loop of `Game.play_turn`, for a player whose decision
function is `policy` (mapping the score of the player and the current
turn total to the returned decision string).  `rolls` is the stream of
the die; the `Int` argument is the turn-total accumulator.  Returns the
outcome of the turn and the unconsumed rolls, or `none` if the stream is
exhausted while the loop is still running. -/
def rollLoop (policy : Int → Int → String) (score : Int) :
    Int → List Int → Option (TurnOutcome × List Int)
  | _, [] => none
  | turn_total, r :: rs =>
    if r = 1 then
      some (TurnOutcome.busted, rs)
    else
      let t := turn_total + r
      if policy score t = "h" then
        some (TurnOutcome.banked t, rs)
      else
        rollLoop policy score t rs

/-- Embeds `Game.play_turn`: reset the turn total to 0, run the roll loop
for the active player, then on bust reset the total and switch; on bank
(decision string "h") add the total to the score of the active player and
switch.  `policy i` is the decision function of player `i`. -/
def Game.play_turn (policy : Int → Int → Int → String) (g : Game)
    (rolls : List Int) : Option (Game × List Int) :=
  match rollLoop (policy g.current_player) g.activeScore 0 rolls with
  | none => none
  | some (TurnOutcome.busted, rest) =>
      some (({ g with turn_total := 0 }).switch_player, rest)
  | some (TurnOutcome.banked t, rest) =>
      some (({ g.add_to_active t with turn_total := t }).switch_player, rest)

/-- Embeds the main loop of `Game.start_game` (play turns while there is
no winner), with an explicit fuel bound on the number of iterations.
Returns the state at loop exit and the unconsumed rolls, or `none` if
fuel or rolls run out before a winner exists. -/
def Game.runLoop (policy : Int → Int → Int → String) :
    Nat → Game → List Int → Option (Game × List Int)
  | 0, g, rolls => if g.is_winner then some (g, rolls) else none
  | fuel + 1, g, rolls =>
    if g.is_winner then
      some (g, rolls)
    else
      match g.play_turn policy rolls with
      | none => none
      | some (g', rest) => Game.runLoop policy fuel g' rest

/-- Embeds the winner selection of `Game.start_game` and of
`TimedGameProxy.declare_winner`: `max` over the players keyed by score.
Python `max` keeps the first maximum, so the first player wins ties. -/
def Game.winner_index (g : Game) : Int :=
  if g.score1 > g.score0 then 1 else 0

/-- Score of the player at index `i` (0 or 1). -/
def Game.scoreOf (g : Game) (i : Int) : Int :=
  if i = 0 then g.score0 else g.score1

/-- Embeds `TimedGameProxy.play_turn`: if more than 60 seconds have
elapsed, print the winner (`declare_winner`) and return without touching
the state; otherwise play a normal turn.  `elapsed` is the elapsed
wall-clock time observed at this call. -/
def TimedGameProxy.play_turn (policy : Int → Int → Int → String)
    (elapsed : Int) (g : Game) (rolls : List Int) :
    Option (Game × List Int) :=
  if elapsed > 60 then
    some (g, rolls)
  else
    g.play_turn policy rolls

/-- The inherited `start_game` loop as run by `TimedGameProxy`: the loop
guard is still the absence of a winner, but each iteration calls the
overridden `play_turn`.  `times k` is the elapsed time observed at the
k-th call, counting from the first argument. -/
def TimedGameProxy.runLoop (policy : Int → Int → Int → String)
    (times : Nat → Int) :
    Nat → Nat → Game → List Int → Option (Game × List Int)
  | _, 0, g, rolls => if g.is_winner then some (g, rolls) else none
  | i, fuel + 1, g, rolls =>
    if g.is_winner then
      some (g, rolls)
    else
      match TimedGameProxy.play_turn policy (times i) g rolls with
      | none => none
      | some (g', rest) => TimedGameProxy.runLoop policy times (i + 1) fuel g' rest

/-- The interactive decision pipeline for a single prompt: the turn
engine banks exactly when the decision string returned by
`Player.make_decision` equals "h". -/
def interactive_banks (response : String) : Bool :=
  Player.make_decision response == "h"

end Pig

namespace Pig

@[simp] lemma switch_player_score0 (g : Game) : g.switch_player.score0 = g.score0 :=
  rfl

@[simp] lemma switch_player_score1 (g : Game) : g.switch_player.score1 = g.score1 :=
  rfl

@[simp] lemma switch_player_current (g : Game) :
    g.switch_player.current_player = 1 - g.current_player :=
  rfl

@[simp] lemma add_to_active_current (g : Game) (t : Int) :
    (g.add_to_active t).current_player = g.current_player := by
  unfold Game.add_to_active
  split <;> rfl

lemma is_winner_iff (g : Game) :
    g.is_winner = true ↔ 100 ≤ g.score0 ∨ 100 ≤ g.score1 := by
  simp [Game.is_winner, Game.playerScores, ge_iff_le]

lemma is_winner_false_iff (g : Game) :
    g.is_winner = false ↔ g.score0 < 100 ∧ g.score1 < 100 := by
  rw [← Bool.not_eq_true, is_winner_iff]
  omega

lemma rollLoop_prefix (policy : Int → Int → String) (score : Int) :
    ∀ (rolls : List Int) (t0 : Int) (out : TurnOutcome) (rest : List Int),
      rollLoop policy score t0 rolls = some (out, rest) →
      ∃ used, rolls = used ++ rest := by
  intro rolls
  induction rolls with
  | nil =>
    intro t0 out rest h
    simp [rollLoop] at h
  | cons r rs ih =>
    intro t0 out rest h
    simp only [rollLoop] at h
    split at h
    · simp only [Option.some.injEq, Prod.mk.injEq] at h
      exact ⟨[r], by simp [h.2]⟩
    · split at h
      · simp only [Option.some.injEq, Prod.mk.injEq] at h
        exact ⟨[r], by simp [h.2]⟩
      · obtain ⟨used, hu⟩ := ih _ _ _ h
        exact ⟨r :: used, by simp [hu]⟩

lemma rollLoop_banked (policy : Int → Int → String) (score : Int) :
    ∀ (rolls : List Int) (t0 t : Int) (rest : List Int),
      rollLoop policy score t0 rolls = some (TurnOutcome.banked t, rest) →
      ∃ used, rolls = used ++ rest ∧ (∀ r ∈ used, r ≠ 1) ∧ t = t0 + used.sum := by
  intro rolls
  induction rolls with
  | nil =>
    intro t0 t rest h
    simp [rollLoop] at h
  | cons r rs ih =>
    intro t0 t rest h
    simp only [rollLoop] at h
    split at h
    · simp at h
    · rename_i h1
      split at h
      · simp only [Option.some.injEq, Prod.mk.injEq, TurnOutcome.banked.injEq] at h
        refine ⟨[r], by simp [h.2], ?_, ?_⟩
        · intro x hx
          simp at hx
          exact hx ▸ h1
        · have := h.1
          simp
          omega
      · obtain ⟨used, hsplit, h1s, hsum⟩ := ih _ _ _ h
        refine ⟨r :: used, by simp [hsplit], ?_, ?_⟩
        · intro x hx
          rcases List.mem_cons.mp hx with hx | hx
          · exact hx ▸ h1
          · exact h1s x hx
        · simp [List.sum_cons]
          omega

end Pig

namespace Pig

lemma play_turn_some (policy : Int → Int → Int → String) (g : Game)
    (rolls : List Int) (g' : Game) (rest : List Int)
    (h : g.play_turn policy rolls = some (g', rest)) :
    (rollLoop (policy g.current_player) g.activeScore 0 rolls
        = some (TurnOutcome.busted, rest)
      ∧ g' = ({ g with turn_total := 0 }).switch_player)
    ∨ ∃ t, rollLoop (policy g.current_player) g.activeScore 0 rolls
        = some (TurnOutcome.banked t, rest)
      ∧ g' = ({ g.add_to_active t with turn_total := t }).switch_player := by
  unfold Game.play_turn at h
  cases hr : rollLoop (policy g.current_player) g.activeScore 0 rolls with
  | none =>
    rw [hr] at h
    simp at h
  | some pr =>
    obtain ⟨out, rst⟩ := pr
    rw [hr] at h
    cases out with
    | busted =>
      simp only [Option.some.injEq, Prod.mk.injEq] at h
      obtain ⟨hg, hrest⟩ := h
      subst hrest
      exact Or.inl ⟨rfl, hg.symm⟩
    | banked t =>
      simp only [Option.some.injEq, Prod.mk.injEq] at h
      obtain ⟨hg, hrest⟩ := h
      subst hrest
      exact Or.inr ⟨t, rfl, hg.symm⟩

lemma runLoop_invariant (policy : Int → Int → Int → String)
    (P : Game → List Int → Prop)
    (hstep : ∀ g rolls g' rest, g.is_winner = false →
      g.play_turn policy rolls = some (g', rest) → P g rolls → P g' rest) :
    ∀ (fuel : Nat) (g : Game) (rolls : List Int) (g' : Game) (rest : List Int),
      P g rolls → Game.runLoop policy fuel g rolls = some (g', rest) →
      P g' rest ∧ g'.is_winner = true := by
  intro fuel
  induction fuel with
  | zero =>
    intro g rolls g' rest hP h
    by_cases hw : g.is_winner = true
    · simp only [Game.runLoop, hw, if_true, Option.some.injEq, Prod.mk.injEq] at h
      obtain ⟨h1, h2⟩ := h
      subst h1
      subst h2
      exact ⟨hP, hw⟩
    · simp [Game.runLoop, hw] at h
  | succ n ih =>
    intro g rolls g' rest hP h
    by_cases hw : g.is_winner = true
    · simp only [Game.runLoop, hw, if_true, Option.some.injEq, Prod.mk.injEq] at h
      obtain ⟨h1, h2⟩ := h
      subst h1
      subst h2
      exact ⟨hP, hw⟩
    · cases hpt : g.play_turn policy rolls with
      | none => simp [Game.runLoop, hw, hpt] at h
      | some pr =>
        obtain ⟨g1, r1⟩ := pr
        have hw' : g.is_winner = false := by
          cases hb : g.is_winner
          · rfl
          · exact absurd hb hw
        simp only [Game.runLoop, hw', Bool.false_eq_true, if_false, hpt] at h
        exact ih g1 r1 g' rest (hstep g rolls g1 r1 hw' hpt hP) h

end Pig

namespace Pig

lemma play_turn_at_most_one_high (policy : Int → Int → Int → String)
    (g : Game) (rolls : List Int) (g' : Game) (rest : List Int)
    (hw : g.is_winner = false)
    (h : g.play_turn policy rolls = some (g', rest)) :
    g'.score0 < 100 ∨ g'.score1 < 100 := by
  obtain ⟨h0, h1⟩ := (is_winner_false_iff g).mp hw
  rcases play_turn_some policy g rolls g' rest h with ⟨-, hg⟩ | ⟨t, -, hg⟩
  · subst hg
    exact Or.inl h0
  · subst hg
    unfold Game.add_to_active
    split
    · exact Or.inr h1
    · exact Or.inl h0

lemma runLoop_exclusive (policy : Int → Int → Int → String)
    (fuel : Nat) (g : Game) (rolls : List Int) (g' : Game) (rest : List Int)
    (h0 : g.score0 < 100) (h1 : g.score1 < 100)
    (h : Game.runLoop policy fuel g rolls = some (g', rest)) :
    (100 ≤ g'.score0 ∧ g'.score1 < 100) ∨ (100 ≤ g'.score1 ∧ g'.score0 < 100) := by
  have key := runLoop_invariant policy
    (fun g1 _ => g1.score0 < 100 ∨ g1.score1 < 100)
    (fun a ra b rb hwa hpt _ => play_turn_at_most_one_high policy a ra b rb hwa hpt)
    fuel g rolls g' rest (Or.inl h0) h
  obtain ⟨hP, hw⟩ := key
  rw [is_winner_iff] at hw
  omega

lemma play_turn_mono (policy : Int → Int → Int → String)
    (g : Game) (rolls : List Int) (g' : Game) (rest : List Int)
    (hr : ∀ r ∈ rolls, (1 : Int) ≤ r)
    (h : g.play_turn policy rolls = some (g', rest)) :
    g.score0 ≤ g'.score0 ∧ g.score1 ≤ g'.score1 ∧ ∀ r ∈ rest, (1 : Int) ≤ r := by
  rcases play_turn_some policy g rolls g' rest h with ⟨hroll, hg⟩ | ⟨t, hroll, hg⟩
  · obtain ⟨used, hu⟩ := rollLoop_prefix _ _ rolls 0 _ rest hroll
    subst hg
    refine ⟨le_refl _, le_refl _, ?_⟩
    intro r hmem
    exact hr r (hu ▸ List.mem_append_right used hmem)
  · obtain ⟨used, hu, hne1, hsum⟩ := rollLoop_banked _ _ rolls 0 t rest hroll
    have htnn : 0 ≤ t := by
      have : 0 ≤ used.sum :=
        List.sum_nonneg fun x hx =>
          le_trans (by omega) (hr x (hu ▸ List.mem_append_left rest hx))
      omega
    subst hg
    have hrest : ∀ r ∈ rest, (1 : Int) ≤ r := fun r hmem =>
      hr r (hu ▸ List.mem_append_right used hmem)
    unfold Game.add_to_active
    split
    · exact ⟨by simp; omega, by simp, hrest⟩
    · exact ⟨by simp, by simp; omega, hrest⟩

lemma timed_runLoop_stuck (policy : Int → Int → Int → String)
    (times : Nat → Int) (h60 : ∀ j, 60 < times j) :
    ∀ (fuel i : Nat) (g : Game) (rolls : List Int), g.is_winner = false →
      TimedGameProxy.runLoop policy times i fuel g rolls = none := by
  intro fuel
  induction fuel with
  | zero =>
    intro i g rolls hw
    simp [TimedGameProxy.runLoop, hw]
  | succ n ih =>
    intro i g rolls hw
    have hpt : TimedGameProxy.play_turn policy (times i) g rolls = some (g, rolls) := by
      simp [TimedGameProxy.play_turn, h60 i]
    simp only [TimedGameProxy.runLoop, hw, Bool.false_eq_true, if_false, hpt]
    exact ih (i + 1) g rolls hw

end Pig

namespace Pig

/-- C2 counterexample: the response "hold" is its own lowercasing (hence a
case-insensitive match of "hold"), yet the interactive pipeline does not
bank on it — the engine compares the lowercased response against "h". -/
theorem pig_C2_counterexample :
    Player.make_decision "hold" = "hold" ∧ interactive_banks "hold" = false := by
  decide

/-- C2 (amended): for every string entered at the interactive prompt, the
interactive decision policy combined with the turn engine yields Bank
exactly when the lowercased input equals "h" (a case-insensitive match of
"h"); every other input, "hold" included, yields Continue, with no error
raised. -/
theorem pig_C2 (response : String) :
    interactive_banks response = true ↔ Player.make_decision response = "h" := by
  simp [interactive_banks]

/-- C3: the automated decision policy returns Bank ("h") exactly when
turnTotal + bankedScore reaches 100 or turnTotal reaches the lesser of 25
and 100 - bankedScore, and Continue ("r") otherwise; it never returns
Continue once banking reaches 100, and at bankedScore 0 it continues at
turn total 24 and banks at 25. -/
theorem pig_C3 (bankedScore turnTotal : Int)
    (hb : 0 ≤ bankedScore) (ht : 0 ≤ turnTotal) :
    (ComputerPlayer.make_decision bankedScore turnTotal = "h" ↔
      turnTotal + bankedScore ≥ 100 ∨ turnTotal ≥ min 25 (100 - bankedScore))
    ∧ (¬(turnTotal + bankedScore ≥ 100 ∨ turnTotal ≥ min 25 (100 - bankedScore)) →
        ComputerPlayer.make_decision bankedScore turnTotal = "r")
    ∧ (turnTotal + bankedScore ≥ 100 →
        ComputerPlayer.make_decision bankedScore turnTotal = "h")
    ∧ ComputerPlayer.make_decision 0 24 = "r"
    ∧ ComputerPlayer.make_decision 0 25 = "h" := by
  refine ⟨?_, ?_, ?_, by decide, by decide⟩
  · unfold ComputerPlayer.make_decision
    split
    · rename_i hc
      exact iff_of_true rfl hc
    · rename_i hc
      exact iff_of_false (by decide) hc
  · intro hc
    unfold ComputerPlayer.make_decision
    rw [if_neg hc]
  · intro hc
    unfold ComputerPlayer.make_decision
    rw [if_pos (Or.inl hc)]

/-- Witness for C3 at bankedScore 0, turnTotal 24. -/
theorem pig_C3_witness : ComputerPlayer.make_decision 0 24 = "r" :=
  (pig_C3 0 24 (by decide) (by decide)).2.2.2.1

/-- C5: whenever the die shows 1 the roll loop ends at once in the busted
outcome, and a busted turn leaves both scores unchanged with the turn
total reset to 0 (the accumulated total is discarded, added to no
score). -/
theorem pig_C5 :
    (∀ (policy : Int → Int → String) (score turn_total : Int) (rs : List Int),
      rollLoop policy score turn_total (1 :: rs) = some (TurnOutcome.busted, rs))
    ∧ (∀ (policy : Int → Int → Int → String) (g : Game) (rolls rest : List Int),
      rollLoop (policy g.current_player) g.activeScore 0 rolls
        = some (TurnOutcome.busted, rest) →
      ∃ g', g.play_turn policy rolls = some (g', rest)
        ∧ g'.score0 = g.score0 ∧ g'.score1 = g.score1 ∧ g'.turn_total = 0) := by
  constructor
  · intro policy score t rs
    simp [rollLoop]
  · intro policy g rolls rest h
    refine ⟨({ g with turn_total := 0 }).switch_player, ?_, rfl, rfl, rfl⟩
    unfold Game.play_turn
    rw [h]

/-- Witness for C5: a bust on the first roll in a concrete game. -/
theorem pig_C5_witness :
    rollLoop (fun _ _ => "r") 5 7 [1] = some (TurnOutcome.busted, [])
    ∧ ∃ g', Game.init.play_turn (fun _ _ _ => "r") [1] = some (g', [])
        ∧ g'.score0 = Game.init.score0 ∧ g'.score1 = Game.init.score1
        ∧ g'.turn_total = 0 :=
  ⟨pig_C5.1 (fun _ _ => "r") 5 7 [],
   pig_C5.2 (fun _ _ _ => "r") Game.init [1] [] (by decide)⟩

/-- C7: the winner check is true exactly when at least one score is 100
or more, and false whenever both scores are below 100. -/
theorem pig_C7 (g : Game) :
    (g.is_winner = true ↔ g.score0 ≥ 100 ∨ g.score1 ≥ 100)
    ∧ (g.score0 < 100 ∧ g.score1 < 100 → g.is_winner = false) := by
  constructor
  · simpa [ge_iff_le] using is_winner_iff g
  · intro hb
    exact (is_winner_false_iff g).mpr hb

/-- Witness for C7 at the initial game state. -/
theorem pig_C7_witness : Game.init.is_winner = false :=
  (pig_C7 Game.init).2 (by decide)

/-- C8: every completed turn switches the active index to one minus its
previous value, and the index stays in the set of 0 and 1. -/
theorem pig_C8 (policy : Int → Int → Int → String) (g : Game)
    (rolls : List Int) (g' : Game) (rest : List Int)
    (h : g.play_turn policy rolls = some (g', rest)) :
    g'.current_player = 1 - g.current_player
    ∧ ((g.current_player = 0 ∨ g.current_player = 1) →
        (g'.current_player = 0 ∨ g'.current_player = 1)) := by
  have hc : g'.current_player = 1 - g.current_player := by
    rcases play_turn_some policy g rolls g' rest h with ⟨-, hg⟩ | ⟨t, -, hg⟩ <;>
      subst hg <;> simp
  exact ⟨hc, fun hd => by omega⟩

/-- Witness for C8: a concrete busted turn from the initial state. -/
theorem pig_C8_witness :
    (Game.mk 0 0 0 1).current_player = 1 - Game.init.current_player
    ∧ ((Game.init.current_player = 0 ∨ Game.init.current_player = 1) →
        ((Game.mk 0 0 0 1).current_player = 0
          ∨ (Game.mk 0 0 0 1).current_player = 1)) :=
  pig_C8 (fun _ _ _ => "r") Game.init [1] (Game.mk 0 0 0 1) [] (by decide)

end Pig

namespace Pig

/-- C4: for every turn that ends in Bank, the score of the active player
afterwards equals its value before plus the turn total; that turn total
is exactly the sum of the rolls consumed this turn, all of which differ
from 1; and the score of the other player is unchanged. -/
theorem pig_C4 (policy : Int → Int → Int → String) (g : Game)
    (rolls : List Int) (t : Int) (rest : List Int)
    (h : rollLoop (policy g.current_player) g.activeScore 0 rolls
      = some (TurnOutcome.banked t, rest)) :
    ∃ used g',
      rolls = used ++ rest ∧ (∀ r ∈ used, r ≠ 1) ∧ t = used.sum
      ∧ g.play_turn policy rolls = some (g', rest)
      ∧ (g.current_player = 0 →
          g'.score0 = g.score0 + t ∧ g'.score1 = g.score1)
      ∧ (g.current_player ≠ 0 →
          g'.score1 = g.score1 + t ∧ g'.score0 = g.score0) := by
  obtain ⟨used, hu, hne1, hsum⟩ := rollLoop_banked _ _ rolls 0 t rest h
  refine ⟨used, ({ g.add_to_active t with turn_total := t }).switch_player,
    hu, hne1, by omega, ?_, ?_, ?_⟩
  · unfold Game.play_turn
    rw [h]
  · intro hc
    constructor <;> simp [Game.add_to_active, hc]
  · intro hc
    constructor <;> simp [Game.add_to_active, hc]

/-- Witness for C4: banking a single roll of 2 from the initial state. -/
theorem pig_C4_witness :
    ∃ used g',
      ([2] : List Int) = used ++ ([] : List Int) ∧ (∀ r ∈ used, r ≠ 1)
      ∧ (2 : Int) = used.sum
      ∧ Game.init.play_turn (fun _ _ _ => "h") [2] = some (g', [])
      ∧ (Game.init.current_player = 0 →
          g'.score0 = Game.init.score0 + 2 ∧ g'.score1 = Game.init.score1)
      ∧ (Game.init.current_player ≠ 0 →
          g'.score1 = Game.init.score1 + 2 ∧ g'.score0 = Game.init.score0) :=
  pig_C4 (fun _ _ _ => "h") Game.init [2] 2 [] (by decide)

/-- C6: when the untimed run loop exits from a state in which both scores
are below 100, the player selected as winner has a strictly higher score
than the other player. -/
theorem pig_C6 (policy : Int → Int → Int → String) (fuel : Nat)
    (g : Game) (rolls : List Int) (g' : Game) (rest : List Int)
    (h0 : g.score0 < 100) (h1 : g.score1 < 100)
    (h : Game.runLoop policy fuel g rolls = some (g', rest)) :
    g'.scoreOf g'.winner_index > g'.scoreOf (1 - g'.winner_index) := by
  have hx := runLoop_exclusive policy fuel g rolls g' rest h0 h1 h
  unfold Game.scoreOf Game.winner_index
  rcases hx with ⟨ha, hb⟩ | ⟨ha, hb⟩ <;> split_ifs <;> omega

/-- Witness for C6: a one-turn game from scores 99 and 0. -/
theorem pig_C6_witness :
    (Game.mk 101 0 2 1).scoreOf (Game.mk 101 0 2 1).winner_index
      > (Game.mk 101 0 2 1).scoreOf (1 - (Game.mk 101 0 2 1).winner_index) :=
  pig_C6 (fun _ _ _ => "h") 2 (Game.mk 99 0 0 0) [2] (Game.mk 101 0 2 1) []
    (by decide) (by decide) (by decide)

/-- C10: when the untimed run loop exits from a state in which both
scores are below 100, exactly one player has reached 100, that player is
the announced winner, and the score of the loser is below 100. -/
theorem pig_C10 (policy : Int → Int → Int → String) (fuel : Nat)
    (g : Game) (rolls : List Int) (g' : Game) (rest : List Int)
    (h0 : g.score0 < 100) (h1 : g.score1 < 100)
    (h : Game.runLoop policy fuel g rolls = some (g', rest)) :
    (100 ≤ g'.score0 ∧ g'.score1 < 100 ∧ g'.winner_index = 0)
    ∨ (100 ≤ g'.score1 ∧ g'.score0 < 100 ∧ g'.winner_index = 1) := by
  have hx := runLoop_exclusive policy fuel g rolls g' rest h0 h1 h
  unfold Game.winner_index
  rcases hx with ⟨ha, hb⟩ | ⟨ha, hb⟩
  · left
    refine ⟨ha, hb, ?_⟩
    rw [if_neg (by omega)]
  · right
    refine ⟨ha, hb, ?_⟩
    rw [if_pos (by omega)]

/-- Witness for C10: a one-turn game from scores 0 and 99 with player 1
active. -/
theorem pig_C10_witness :
    (100 ≤ (Game.mk 0 101 2 0).score0 ∧ (Game.mk 0 101 2 0).score1 < 100
      ∧ (Game.mk 0 101 2 0).winner_index = 0)
    ∨ (100 ≤ (Game.mk 0 101 2 0).score1 ∧ (Game.mk 0 101 2 0).score0 < 100
      ∧ (Game.mk 0 101 2 0).winner_index = 1) :=
  pig_C10 (fun _ _ _ => "h") 2 (Game.mk 0 99 0 1) [2] (Game.mk 0 101 2 0) []
    (by decide) (by decide) (by decide)

/-- C9: with die rolls of at least 1, a completed turn never decreases
either score, and the whole run loop never decreases either score; in
particular both scores stay non-negative whenever they start
non-negative. -/
theorem pig_C9 :
    (∀ (policy : Int → Int → Int → String) (g : Game) (rolls : List Int)
        (g' : Game) (rest : List Int),
      (∀ r ∈ rolls, (1 : Int) ≤ r) →
      g.play_turn policy rolls = some (g', rest) →
      g.score0 ≤ g'.score0 ∧ g.score1 ≤ g'.score1)
    ∧ (∀ (policy : Int → Int → Int → String) (fuel : Nat) (g : Game)
        (rolls : List Int) (g' : Game) (rest : List Int),
      (∀ r ∈ rolls, (1 : Int) ≤ r) →
      Game.runLoop policy fuel g rolls = some (g', rest) →
      g.score0 ≤ g'.score0 ∧ g.score1 ≤ g'.score1
        ∧ (0 ≤ g.score0 → 0 ≤ g'.score0) ∧ (0 ≤ g.score1 → 0 ≤ g'.score1)) := by
  constructor
  · intro policy g rolls g' rest hr h
    obtain ⟨a, b, -⟩ := play_turn_mono policy g rolls g' rest hr h
    exact ⟨a, b⟩
  · intro policy fuel g rolls g' rest hr h
    have key := runLoop_invariant policy
      (fun g1 r1 => (∀ r ∈ r1, (1 : Int) ≤ r)
        ∧ g.score0 ≤ g1.score0 ∧ g.score1 ≤ g1.score1)
      (by
        intro a ra b rb hwa hpt hPa
        obtain ⟨hra, ha0, ha1⟩ := hPa
        obtain ⟨m0, m1, hrb⟩ := play_turn_mono policy a ra b rb hra hpt
        exact ⟨hrb, le_trans ha0 m0, le_trans ha1 m1⟩)
      fuel g rolls g' rest ⟨hr, le_refl _, le_refl _⟩ h
    obtain ⟨⟨-, a, b⟩, -⟩ := key
    exact ⟨a, b, fun hp => le_trans hp a, fun hp => le_trans hp b⟩

/-- Witness for C9: a banked turn from scores 3 and 4, and a finished run
from scores 99 and 0. -/
theorem pig_C9_witness :
    ((Game.mk 3 4 0 0).score0 ≤ (Game.mk 5 4 2 1).score0
      ∧ (Game.mk 3 4 0 0).score1 ≤ (Game.mk 5 4 2 1).score1)
    ∧ ((Game.mk 99 0 0 0).score0 ≤ (Game.mk 101 0 2 1).score0
      ∧ (Game.mk 99 0 0 0).score1 ≤ (Game.mk 101 0 2 1).score1
      ∧ (0 ≤ (Game.mk 99 0 0 0).score0 → 0 ≤ (Game.mk 101 0 2 1).score0)
      ∧ (0 ≤ (Game.mk 99 0 0 0).score1 → 0 ≤ (Game.mk 101 0 2 1).score1)) :=
  ⟨pig_C9.1 (fun _ _ _ => "h") (Game.mk 3 4 0 0) [2] (Game.mk 5 4 2 1) []
      (by decide) (by decide),
   pig_C9.2 (fun _ _ _ => "h") 2 (Game.mk 99 0 0 0) [2] (Game.mk 101 0 2 1) []
      (by decide) (by decide)⟩

/-- C1: once more than 60 seconds have elapsed, the overridden timed
play_turn returns without playing the turn and without mutating any
state; consequently the inherited run loop, whose guard still tests only
the winner condition, never exits when no player has yet reached 100 —
for every iteration bound it is still running — contradicting the claimed
immediate termination. -/
theorem pig_C1 :
    (∀ (policy : Int → Int → Int → String) (elapsed : Int) (g : Game)
        (rolls : List Int),
      60 < elapsed →
      TimedGameProxy.play_turn policy elapsed g rolls = some (g, rolls))
    ∧ (∀ (policy : Int → Int → Int → String) (times : Nat → Int)
        (i fuel : Nat) (g : Game) (rolls : List Int),
      g.is_winner = false → (∀ j, 60 < times j) →
      TimedGameProxy.runLoop policy times i fuel g rolls = none) := by
  constructor
  · intro policy e g rolls he
    simp [TimedGameProxy.play_turn, he]
  · intro policy times i fuel g rolls hw ht
    exact timed_runLoop_stuck policy times ht fuel i g rolls hw

/-- Witness for C1: with elapsed time fixed at 61 seconds and scores 10
and 5, the timed turn is skipped unchanged and the loop is still running
after three iterations. -/
theorem pig_C1_witness :
    TimedGameProxy.play_turn (fun _ _ _ => "r") 61 (Game.mk 10 5 0 0) []
      = some (Game.mk 10 5 0 0, [])
    ∧ TimedGameProxy.runLoop (fun _ _ _ => "r") (fun _ => 61) 0 3
        (Game.mk 10 5 0 0) [] = none :=
  ⟨pig_C1.1 (fun _ _ _ => "r") 61 (Game.mk 10 5 0 0) [] (by decide),
   pig_C1.2 (fun _ _ _ => "r") (fun _ => 61) 0 3 (Game.mk 10 5 0 0) []
     (by decide) (fun _ => show (60 : Int) < 61 by decide)⟩

end Pig
